import Mathlib

/-!
Verification of the artemis experiment-browser UI (`artemis/experiments/ui.py`):
a shallow embedding of the table-row fetchers, the disk-backed row cache, the
command dispatcher and the nested table renderer, together with proofs of the
specified properties.
-/

set_option autoImplicit false

namespace ArtemisUI

/-! ## Data model -/

/-- The closed enumeration of display fields (`ExpRecordDisplayFields` in the source). -/
inductive ExpRecordDisplayFields
  | RUNS
  | DURATION
  | STATUS
  | ARGS_CHANGED
  | RESULT_STR
  | NOTES
deriving DecidableEq

/-- Record status (`ExpStatusOptions`); per the data model,
`Status ∈ {Started, Finished, Errored, Corrupt}`. -/
inductive ExpStatus
  | Started
  | Finished
  | Errored
  | Corrupt
deriving DecidableEq

/-- Modelled from the spec: the status text produced by
`info.get_field_text(ExpInfoFields.STATUS)` (that function is not under src/);
one fixed string per status value. -/
def statusText : ExpStatus → String
  | .Started => "Started"
  | .Finished => "Finished"
  | .Errored => "Errored"
  | .Corrupt => "Corrupt"

/-- An experiment record as seen by the row fetchers: its status plus, for each
non-status display field, the outcome of that field's getter (`none` models the
getter raising an exception).  `statusFails` models the STATUS getter raising. -/
structure ExpRecord where
  status : ExpStatus
  statusFails : Bool
  runsText : Option String
  durationText : Option String
  argsChangedText : Option String
  resultText : Option String
  notesText : Option String

/-- The field-getter table (`_exp_record_field_getters`): one getter per display
field; a getter returns `none` when it would raise. -/
def _exp_record_field_getters (h : ExpRecordDisplayFields) (rec : ExpRecord) : Option String :=
  match h with
  | .RUNS => rec.runsText
  | .DURATION => rec.durationText
  | .STATUS => if rec.statusFails then none else some (statusText rec.status)
  | .ARGS_CHANGED => rec.argsChangedText
  | .RESULT_STR => rec.resultText
  | .NOTES => rec.notesText

/-- The placeholder substituted for a cell whose getter raised. -/
def PLACEHOLDER : String := "<Display Error>"

/-- The ellipsis marker appended by truncation. -/
def TRUNC_MSG : String := "..."

/-- Modelled from the spec: `truncate_string` (not under src/) cuts a value
exceeding the limit and appends the ellipsis marker; a `none` limit leaves the
value unchanged (the source guards the call on `truncate_to is not None`,
which is equivalent). -/
def truncate_string (val : String) (truncation : Option Nat) (message : String) : String :=
  match truncation with
  | none => val
  | some limit => if limit < val.length then (val.take limit) ++ message else val

/-- The uncached row fetcher `_get_record_rows`: one cell per requested header.
With `raise_display_errors = false` each getter's failure is replaced by
`PLACEHOLDER`; with `true` the first failure propagates (result `none`).
All cells then pass through truncation. -/
def _get_record_rows (rec : ExpRecord) (headers : List ExpRecordDisplayFields)
    (raise_display_errors : Bool) (truncate_to : Option Nat) : Option (List String) :=
  let values? : Option (List String) :=
    if raise_display_errors then
      headers.mapM (fun h => _exp_record_field_getters h rec)
    else
      some (headers.map (fun h => (_exp_record_field_getters h rec).getD PLACEHOLDER))
  values?.map (fun values => values.map (fun val => truncate_string val truncate_to TRUNC_MSG))

/-! ## The row cache -/

/-- A cache file's observable content: a deserializable list of strings, or a
file whose read/deserialize fails (`corrupt`). -/
inductive CacheFile
  | good (vals : List String)
  | corrupt
deriving DecidableEq

/-- Modelled from the spec: `compute_fixed_hash(record_id, headers)` (not under
src/) is a stable, collision-free hash of the pair; modelled as the pair itself.
The key depends on nothing but the record id and the header list. -/
def compute_fixed_hash (record_id : String) (headers : List ExpRecordDisplayFields) :
    String × List ExpRecordDisplayFields :=
  (record_id, headers)

/-- The cache directory: for each key, the cache file stored under that key's
path, if any. -/
def CacheState := String × List ExpRecordDisplayFields → Option CacheFile

/-- Outcome of one `_get_record_rows_cached` call: the returned value (`none`
models a propagated exception), the cache directory afterwards, and whether the
field getters were invoked during the call. -/
structure FetchResult where
  result : Option (List String)
  cache : CacheState
  gettersInvoked : Bool

/-- The cached row fetcher `_get_record_rows_cached`.
If a readable cache file exists for the key it is returned as-is (no getters
run).  Otherwise (no file, or read failure, which the source logs and falls
through) the row is recomputed with `STATUS` appended to the headers; the last
cell is split off as the status.  A `Started` status returns without writing;
otherwise the value written to the file is `info.dropLast` (the source writes
`info[:-1]`, one element shorter than the `info` it returns). -/
def _get_record_rows_cached (recs : String → ExpRecord) (cache : CacheState)
    (record_id : String) (headers : List ExpRecordDisplayFields)
    (raise_display_errors : Bool) (truncate_to : Option Nat) : FetchResult :=
  let cache_key := compute_fixed_hash record_id headers
  let onMiss : FetchResult :=
    match _get_record_rows (recs record_id) (headers ++ [.STATUS])
        raise_display_errors truncate_to with
    | none => ⟨none, cache, true⟩
    | some info_plus_status =>
      let info := info_plus_status.dropLast
      let status := info_plus_status.getLastD ""
      if status = statusText .Started then
        ⟨some info, cache, true⟩
      else
        ⟨some info, fun k => if k = cache_key then some (.good info.dropLast) else cache k, true⟩
  match cache cache_key with
  | some (.good info) => ⟨some info, cache, false⟩
  | some .corrupt => onMiss
  | none => onMiss

/-- The empty cache directory. -/
def emptyCache : CacheState := fun _ => none

/-! ## Command dispatcher -/

/-- One row of the Wagner-Fischer dynamic program: given the new character `a`,
the remaining characters of the second word, the diagonal and left entries and
the rest of the previous row, produce the rest of the new row. -/
def levRowAux (a : Char) : List Char → Nat → Nat → List Nat → List Nat
  | [], _, _, _ => []
  | _ :: _, _, _, [] => []
  | b :: bs, diag, left, up :: rest =>
    let cur := Nat.min (diag + (if a = b then 0 else 1)) (Nat.min (up + 1) (left + 1))
    cur :: levRowAux a bs up cur rest

/-- Advance the Wagner-Fischer dynamic program by one character of the first word. -/
def levNextRow (a : Char) (t : List Char) (prev : List Nat) : List Nat :=
  match prev with
  | [] => []
  | p0 :: rest => (p0 + 1) :: levRowAux a t p0 (p0 + 1) rest

/-- Modelled from the spec: `levenshtein_distance` (not under src/) is the edit
distance between two strings, computed by the standard dynamic program. -/
def levenshtein_distance (s t : String) : Nat :=
  let tl := t.data
  let finalRow := s.data.foldl (fun row a => levNextRow a tl row) (List.range (tl.length + 1))
  finalRow.getLastD 0

/-- The registered command names (the keys of `func_dict` in
`ExperimentBrowser.launch`), in source order.  The source stores them in an
unordered dict; the order only affects which of several equally-distant
commands is suggested. -/
def commandNames : List String :=
  ["run", "test", "show", "call", "selectexp", "selectrec", "allruns", "view", "h",
   "filter", "explist", "sidebyside", "argtable", "compare", "delete", "errortrace",
   "q", "records", "pull"]

/-- `min` of a list of naturals, as Python's `min` on a non-empty list
(`0` for the empty list, on which the source would raise). -/
def minNat : List Nat → Nat
  | [] => 0
  | x :: xs => xs.foldl min x

/-- The unknown-command suggestion: compute the edit distance from the typed
token to every registered command, take the command at the first index
attaining the minimum, and suggest it exactly when the minimum is at most 2. -/
def suggestedCommand (cmd : String) (cmds : List String) : Option String :=
  let edit_distances := cmds.map (levenshtein_distance cmd)
  let min_distance := minNat edit_distances
  let closest := cmds.get? (edit_distances.indexOf min_distance)
  if min_distance ≤ 2 then closest else none

/-- Python's `str.split(sep)` for a one-character separator, on character
lists: consecutive separators produce empty fields and the empty input gives
one empty field. -/
def splitChars (sep : Char) : List Char → List (List Char)
  | [] => [[]]
  | c :: cs =>
    match splitChars sep cs with
    | [] => [[]]
    | t :: ts => if c = sep then [] :: t :: ts else (c :: t) :: ts

/-- Python's `str.split(sep)` for a one-character separator. -/
def pySplit (s : String) (sep : Char) : List String :=
  (splitChars sep s.data).map (fun l => ⟨l⟩)

/-- Digits-to-number accumulator for `parseNatToken`. -/
def digitsVal (l : List Char) : Nat := l.foldl (fun n c => n * 10 + (c.toNat - 48)) 0

/-- Parse a non-empty all-digit token as a natural number. -/
def parseNatToken (s : String) : Option Nat :=
  if s.length ≠ 0 ∧ s.data.all Char.isDigit then some (digitsVal s.data) else none

/-- Modelled from the spec: `interpret_numbers` (not under src/) parses a bare
integer index `"4"` or an inclusive range `"4-6"` into the list of selected
indices, and anything else to `none`. -/
def interpret_numbers (s : String) : Option (List Nat) :=
  match pySplit s (Char.ofNat 45) with
  | [a] => (parseNatToken a).map (fun n => [n])
  | [a, b] =>
    match parseNatToken a, parseNatToken b with
    | some x, some y => some (List.range' x (y + 1 - x))
    | _, _ => none
  | _ => none

/-- What one iteration of the `launch` loop does with a command line. -/
inductive DispatchAction where
  | blank
  | handler (name : String) (args : List String)
  | runNumeric (sel : String) (args : List String)
  | refresh
  | unknown (suggestion : Option String)
deriving DecidableEq

/-- The explicit run-mode flags checked before appending the implicit `-e`. -/
def runModeFlags : List String := ["-s", "-e", "-p"]

/-- The command-dispatch logic of `ExperimentBrowser.launch`: split the line on
single spaces, take the first token as the command; a registered command goes to
its handler with the remaining tokens; otherwise a token parsed by
`interpret_numbers` runs that numeric selection, appending `"-e"` when none of
the explicit run-mode flags is among the argument tokens; otherwise `"r"`
refreshes, and anything else produces the unknown-command suggestion. -/
def dispatchCommand (user_input : String) : DispatchAction :=
  match pySplit user_input (Char.ofNat 32) with
  | [] => .blank
  | cmd :: args =>
    if cmd = "" then .blank
    else if commandNames.contains cmd then .handler cmd args
    else if (interpret_numbers cmd).isSome then
      let args2 :=
        if ¬ (runModeFlags.any (fun x => args.contains x)) then args ++ ["-e"] else args
      .runNumeric cmd args2
    else if cmd = "r" then .refresh
    else .unknown (suggestedCommand cmd commandNames)

/-! ## Deletion handlers -/

/-- Python's `str.lower` on an ASCII character. -/
def charLower (c : Char) : Char :=
  if Char.ofNat 65 ≤ c ∧ c ≤ Char.ofNat 90 then Char.ofNat (c.toNat + 32) else c

/-- Python's `str.lower` (for the ASCII confirmation strings involved here). -/
def strLower (s : String) : String := ⟨s.data.map charLower⟩

/-- Modelled from the spec: `clear_experiment_records(ids)` (not under src/)
deletes exactly the given records from the record collection. -/
def clear_experiment_records (records selected : List String) : List String :=
  records.filter (fun r => ¬ selected.contains r)

/-- Outcome of a delete handler: the record collection afterwards and whether
`clear_experiment_records` was called. -/
structure DeleteOutcome where
  records : List String
  cleared : Bool
deriving DecidableEq

/-- `ExperimentBrowser.delete`: deletes the selected records exactly when the
lower-cased confirmation input equals `"yes"`. -/
def experimentBrowserDelete (records selected : List String) (response : String) :
    DeleteOutcome :=
  if strLower response = "yes" then ⟨clear_experiment_records records selected, true⟩
  else ⟨records, false⟩

/-- `ExperimentRecordBrowser.delete`: deletes the selected records exactly when
the confirmation input equals `"yes"` verbatim (no lower-casing in the source). -/
def recordBrowserDelete (records selected : List String) (conf : String) :
    DeleteOutcome :=
  if conf = "yes" then ⟨clear_experiment_records records selected, true⟩
  else ⟨records, false⟩

/-! ## Nested table renderer -/

/-- One line of the rendered nested table, identified by its origin: the record
table's two header lines, one data line per record, or one group-table content
line per experiment.  (Cell contents are irrelevant to the line-ordering
invariant; `tabulate` is an external library whose output is two header lines
followed by one line per row.) -/
inductive TableLine where
  | headerLine (i : Nat)
  | recordLine (expIx recIx : Nat)
  | expLine (expIx : Nat)
deriving DecidableEq

/-- The loop of the nested branch of `get_experiment_list_str`, abstracted over
record counts: running over the experiments in order with the line counter
started at 2 (the record table's two header lines), it accumulates the
record-table data lines, the group-table content lines, and the splice index
recorded for each experiment before that experiment's records advance the
counter.  Returns `(record_rows, experiment_rows, experiment_row_ixs)`. -/
def nestedLoop : Nat → Nat → List Nat → List TableLine × List TableLine × List Nat
  | _, _, [] => ([], [], [])
  | i, counter, n :: rest =>
    let out := nestedLoop (i + 1) (counter + n) rest
    ((List.range n).map (fun j => .recordLine i j) ++ out.1,
     .expLine i :: out.2.1,
     counter :: out.2.2)

/-- Modelled from the spec: the worker behind `insert_at` (not under src/).
`pos` is the original offset of the head of the remaining `xs`; each element of
`ys` is spliced in directly before the original offset given by the matching
entry of `is` (offsets nondecreasing); an offset past the end appends. -/
def insertFrom {α : Type} (pos : Nat) (xs : List α) : List α → List Nat → List α
  | [], _ => xs
  | _ :: _, [] => xs
  | y :: ys, i :: is => xs.take (i - pos) ++ y :: insertFrom i (xs.drop (i - pos)) ys is

/-- Modelled from the spec: `insert_at(list1, list2, indices)` (not under src/)
splices each element of `list2` into `list1` at the corresponding original line
offset of `list1`. -/
def insert_at {α : Type} (xs ys : List α) (indices : List Nat) : List α :=
  insertFrom 0 xs ys indices

/-- The nested branch of `get_experiment_list_str`, abstracted over the record
count of each experiment: the record table is its two header lines followed by
the record data lines, and the group-table content lines are spliced in at the
recorded indices. -/
def get_experiment_list_str_nested (counts : List Nat) : List TableLine :=
  let out := nestedLoop 0 2 counts
  let record_table_rows : List TableLine := .headerLine 0 :: .headerLine 1 :: out.1
  insert_at record_table_rows out.2.1 out.2.2

/-- The intended nested layout, written directly: for each experiment its group
line followed by its record lines. -/
def canonicalBlocks : Nat → List Nat → List TableLine
  | _, [] => []
  | i, n :: rest =>
    .expLine i :: (List.range n).map (fun j => .recordLine i j) ++ canonicalBlocks (i + 1) rest

/-- The intended rendered nested table: the two header lines, then each
experiment's group line followed by its record lines. -/
def nestedCanonical (counts : List Nat) : List TableLine :=
  .headerLine 0 :: .headerLine 1 :: canonicalBlocks 0 counts

/-! ## Concrete fixtures used by witnesses and counterexamples -/

/-- A record with terminal status `Finished` whose getters all succeed. -/
def finishedRec : ExpRecord :=
  ⟨.Finished, false, some "2024.01.01", some "1s", some "No", some "42", some ""⟩

/-- A record with status `Started` whose getters all succeed. -/
def startedRec : ExpRecord :=
  ⟨.Started, false, some "2024.01.01", some "1s", some "No", some "42", some ""⟩

/-- A record whose `RESULT_STR` getter raises. -/
def faultyRec : ExpRecord :=
  ⟨.Finished, false, some "2024.01.01", some "1s", some "No", none, some "a note"⟩

/-! ## Helper lemmas -/

/-- With `raise_display_errors = false` the row fetcher always succeeds, cell by
cell substituting the placeholder for a failed getter and truncating. -/
theorem get_record_rows_false_eq (rec : ExpRecord) (headers : List ExpRecordDisplayFields)
    (t : Option Nat) :
    _get_record_rows rec headers false t =
      some ((headers.map (fun h => (_exp_record_field_getters h rec).getD PLACEHOLDER)).map
        (fun val => truncate_string val t TRUNC_MSG)) := rfl

/-- A getter failure anywhere in the header list makes the strict pass fail. -/
theorem mapM_getters_none (rec : ExpRecord) :
    ∀ headers : List ExpRecordDisplayFields,
      (∃ h2, h2 ∈ headers ∧ _exp_record_field_getters h2 rec = none) →
      headers.mapM (fun h => _exp_record_field_getters h rec) = none := by
  intro headers
  induction headers with
  | nil => rintro ⟨h2, hmem, -⟩; cases hmem
  | cons a l ih =>
    rintro ⟨h2, hmem, hnone⟩
    rw [List.mapM_cons]
    rcases List.mem_cons.mp hmem with rfl | hmem
    · rw [hnone]; rfl
    · cases hget : _exp_record_field_getters a rec with
      | none => rfl
      | some v => rw [ih ⟨h2, hmem, hnone⟩]; rfl

/-- A left fold by `min` is bounded by its initial value. -/
theorem foldl_min_le_init (xs : List Nat) : ∀ x : Nat, xs.foldl min x ≤ x := by
  induction xs with
  | nil => intro x; exact Nat.le_refl x
  | cons a l ih =>
    intro x
    exact le_trans (ih (min x a)) (min_le_left x a)

/-- A left fold by `min` is bounded by every list element. -/
theorem foldl_min_le (xs : List Nat) : ∀ x y : Nat, y ∈ xs → xs.foldl min x ≤ y := by
  induction xs with
  | nil => intro x y hy; cases hy
  | cons a l ih =>
    intro x y hy
    rcases List.mem_cons.mp hy with rfl | hy
    · exact le_trans (foldl_min_le_init l (min x y)) (min_le_right x y)
    · exact ih (min x a) y hy

/-- A left fold by `min` is the initial value or a list element. -/
theorem foldl_min_mem (xs : List Nat) : ∀ x : Nat, xs.foldl min x = x ∨ xs.foldl min x ∈ xs := by
  induction xs with
  | nil => intro x; exact Or.inl rfl
  | cons a l ih =>
    intro x
    rw [List.foldl_cons]
    rcases ih (min x a) with h | h
    · rw [h]
      rcases Nat.le_total x a with hxa | hax
      · exact Or.inl (min_eq_left hxa)
      · rw [min_eq_right hax]
        exact Or.inr (List.mem_cons_self a l)
    · exact Or.inr (List.mem_cons_of_mem a h)

/-- The minimum of a non-empty list is attained. -/
theorem minNat_mem (x : Nat) (xs : List Nat) : minNat (x :: xs) ∈ x :: xs := by
  show xs.foldl min x ∈ x :: xs
  rcases foldl_min_mem xs x with h | h
  · rw [h]; exact List.mem_cons_self x xs
  · exact List.mem_cons_of_mem x h

/-- The minimum of a non-empty list is a lower bound. -/
theorem minNat_le (x : Nat) (xs : List Nat) : ∀ y ∈ x :: xs, minNat (x :: xs) ≤ y := by
  intro y hy
  show xs.foldl min x ≤ y
  rcases List.mem_cons.mp hy with rfl | hy
  · exact foldl_min_le_init xs y
  · exact foldl_min_le xs x y hy

/-! ## Claim theorems -/

/-- C1: the claim that calling `_get_record_rows_cached` twice with the same
terminal record and headers returns identical value lists fails on the code: the
value written to the cache file is `info[:-1]`, one cell shorter than the `info`
returned by the first call, so the second (cache-hit) call returns a shorter
list.  Evaluated here at a `Finished` record with one requested header. -/
theorem C1_cached_fetch_second_call_differs :
    (_get_record_rows_cached (fun _ => finishedRec) emptyCache "rec1"
        [ExpRecordDisplayFields.RESULT_STR] false none).result = some ["42"] ∧
    (_get_record_rows_cached (fun _ => finishedRec)
        (_get_record_rows_cached (fun _ => finishedRec) emptyCache "rec1"
          [ExpRecordDisplayFields.RESULT_STR] false none).cache
        "rec1" [ExpRecordDisplayFields.RESULT_STR] false none).result = some [] ∧
    ¬ (some ([] : List String) = some ["42"]) ∧
    (_get_record_rows_cached (fun _ => finishedRec)
        (_get_record_rows_cached (fun _ => finishedRec) emptyCache "rec1"
          [ExpRecordDisplayFields.RESULT_STR] false none).cache
        "rec1" [ExpRecordDisplayFields.RESULT_STR] false none).gettersInvoked = false := by
  decide

/-- C2: the row-width invariant holds for `_get_record_rows` and for the miss
path of `_get_record_rows_cached`, but fails on the cache-hit path: the stored
row is one cell shorter, so a hit returns 0 cells for 1 requested header. -/
theorem C2_cache_hit_row_width_broken :
    (_get_record_rows finishedRec [ExpRecordDisplayFields.RESULT_STR] false none).map
        List.length = some [ExpRecordDisplayFields.RESULT_STR].length ∧
    ((_get_record_rows_cached (fun _ => finishedRec) emptyCache "rec1"
        [ExpRecordDisplayFields.RESULT_STR] false none).result).map List.length
      = some [ExpRecordDisplayFields.RESULT_STR].length ∧
    ((_get_record_rows_cached (fun _ => finishedRec)
        (_get_record_rows_cached (fun _ => finishedRec) emptyCache "rec1"
          [ExpRecordDisplayFields.RESULT_STR] false none).cache
        "rec1" [ExpRecordDisplayFields.RESULT_STR] false none).result).map List.length
      = some 0 ∧
    [ExpRecordDisplayFields.RESULT_STR].length = 1 ∧ ¬ (0 : Nat) = 1 := by
  decide

/-- C3: for a record whose computed status cell is `Started` (and no cache file
for the key), the cached fetch returns the freshly computed values, leaves the
cache untouched, invokes the getters, and a repeated fetch does exactly the same
(recomputes again; no cache file is ever created by these calls). -/
theorem C3_started_never_cached
    (recs : String → ExpRecord) (cache : CacheState) (record_id : String)
    (headers : List ExpRecordDisplayFields) (rde : Bool) (t : Option Nat)
    (hmiss : cache (record_id, headers) = none) (ips : List String)
    (hrows : _get_record_rows (recs record_id) (headers ++ [.STATUS]) rde t = some ips)
    (hstarted : ips.getLastD "" = statusText .Started) :
    _get_record_rows_cached recs cache record_id headers rde t =
      ⟨some ips.dropLast, cache, true⟩ ∧
    _get_record_rows_cached recs
        (_get_record_rows_cached recs cache record_id headers rde t).cache
        record_id headers rde t =
      ⟨some ips.dropLast, cache, true⟩ := by
  have h1 : _get_record_rows_cached recs cache record_id headers rde t =
      ⟨some ips.dropLast, cache, true⟩ := by
    simp only [_get_record_rows_cached, compute_fixed_hash, hmiss, hrows]
    rw [if_pos hstarted]
  exact ⟨h1, by rw [h1]; exact h1⟩

/-- Witness for C3: a `Started` record with a single requested header. -/
theorem C3_witness :
    emptyCache ("rec1", [ExpRecordDisplayFields.RESULT_STR]) = none ∧
    _get_record_rows startedRec ([ExpRecordDisplayFields.RESULT_STR] ++ [.STATUS]) false none
      = some ["42", "Started"] ∧
    (["42", "Started"] : List String).getLastD "" = statusText .Started ∧
    (_get_record_rows_cached (fun _ => startedRec) emptyCache "rec1"
        [ExpRecordDisplayFields.RESULT_STR] false none =
      ⟨some (["42", "Started"] : List String).dropLast, emptyCache, true⟩ ∧
     _get_record_rows_cached (fun _ => startedRec)
        (_get_record_rows_cached (fun _ => startedRec) emptyCache "rec1"
          [ExpRecordDisplayFields.RESULT_STR] false none).cache
        "rec1" [ExpRecordDisplayFields.RESULT_STR] false none =
      ⟨some (["42", "Started"] : List String).dropLast, emptyCache, true⟩) :=
  ⟨rfl, rfl, rfl,
    C3_started_never_cached (fun _ => startedRec) emptyCache "rec1"
      [ExpRecordDisplayFields.RESULT_STR] false none rfl ["42", "Started"] rfl rfl⟩

/-- C4: with `raise_display_errors = false` a failing getter yields the
placeholder for exactly its own cell while every other cell is the getter's
value (both then truncated; truncation keeps the placeholder verbatim whenever
the limit accommodates it); with `true`, any failing getter makes the whole row
fetch propagate the error and no row is returned. -/
theorem C4_display_error_isolation
    (rec : ExpRecord) (headers : List ExpRecordDisplayFields) (t : Option Nat)
    (i : Nat) (h : ExpRecordDisplayFields) (hih : headers.get? i = some h) :
    ∃ vs, _get_record_rows rec headers false t = some vs ∧
      vs.length = headers.length ∧
      (_exp_record_field_getters h rec = none →
        vs.get? i = some (truncate_string PLACEHOLDER t TRUNC_MSG)) ∧
      (∀ v, _exp_record_field_getters h rec = some v →
        vs.get? i = some (truncate_string v t TRUNC_MSG)) ∧
      ((∃ h2, h2 ∈ headers ∧ _exp_record_field_getters h2 rec = none) →
        _get_record_rows rec headers true t = none) ∧
      (t = none → truncate_string PLACEHOLDER t TRUNC_MSG = PLACEHOLDER) ∧
      (∀ limit, t = some limit → PLACEHOLDER.length ≤ limit →
        truncate_string PLACEHOLDER t TRUNC_MSG = PLACEHOLDER) := by
  refine ⟨_, get_record_rows_false_eq rec headers t, ?_, ?_, ?_, ?_, ?_, ?_⟩
  · simp
  · intro hnone
    rw [List.get?_map, List.get?_map, hih]
    simp [hnone]
  · intro v hv
    rw [List.get?_map, List.get?_map, hih]
    simp [hv]
  · intro hex
    show ((headers.mapM fun h => _exp_record_field_getters h rec).map
      (fun values => values.map (fun val => truncate_string val t TRUNC_MSG))) = none
    rw [mapM_getters_none rec headers hex]
    rfl
  · intro ht; subst ht; rfl
  · intro limit ht hlim
    subst ht
    simp only [truncate_string]
    rw [if_neg (by omega)]

/-- Witness for C4: a record whose `RESULT_STR` getter fails, requested
alongside `NOTES`. -/
theorem C4_witness :
    ([ExpRecordDisplayFields.RESULT_STR, ExpRecordDisplayFields.NOTES].get? 0
      = some ExpRecordDisplayFields.RESULT_STR) ∧
    (∃ vs, _get_record_rows faultyRec
        [ExpRecordDisplayFields.RESULT_STR, ExpRecordDisplayFields.NOTES] false none
        = some vs ∧
      vs.length = [ExpRecordDisplayFields.RESULT_STR, ExpRecordDisplayFields.NOTES].length ∧
      (_exp_record_field_getters ExpRecordDisplayFields.RESULT_STR faultyRec = none →
        vs.get? 0 = some (truncate_string PLACEHOLDER none TRUNC_MSG)) ∧
      (∀ v, _exp_record_field_getters ExpRecordDisplayFields.RESULT_STR faultyRec = some v →
        vs.get? 0 = some (truncate_string v none TRUNC_MSG)) ∧
      ((∃ h2, h2 ∈ [ExpRecordDisplayFields.RESULT_STR, ExpRecordDisplayFields.NOTES] ∧
          _exp_record_field_getters h2 faultyRec = none) →
        _get_record_rows faultyRec
          [ExpRecordDisplayFields.RESULT_STR, ExpRecordDisplayFields.NOTES] true none = none) ∧
      ((none : Option Nat) = none →
        truncate_string PLACEHOLDER none TRUNC_MSG = PLACEHOLDER) ∧
      (∀ limit, (none : Option Nat) = some limit → PLACEHOLDER.length ≤ limit →
        truncate_string PLACEHOLDER none TRUNC_MSG = PLACEHOLDER)) :=
  ⟨rfl, C4_display_error_isolation faultyRec
    [ExpRecordDisplayFields.RESULT_STR, ExpRecordDisplayFields.NOTES] none 0
    ExpRecordDisplayFields.RESULT_STR rfl⟩

/-- C5: when the cache file for the key exists but reading it fails, the cached
fetch proceeds exactly as on a cache miss: it returns the same result and
invokes the getters just as the same call with the file absent would, never
itself propagating an error (with `raise_display_errors = false` the result is
always a row), and touches no other key's file differently than a miss would. -/
theorem C5_corrupt_cache_degrades
    (recs : String → ExpRecord) (cache : CacheState) (record_id : String)
    (headers : List ExpRecordDisplayFields) (rde : Bool) (t : Option Nat)
    (hcorrupt : cache (record_id, headers) = some .corrupt) :
    (_get_record_rows_cached recs cache record_id headers rde t).result =
      (_get_record_rows_cached recs
        (fun k => if k = (record_id, headers) then none else cache k)
        record_id headers rde t).result ∧
    (_get_record_rows_cached recs cache record_id headers rde t).gettersInvoked = true ∧
    (_get_record_rows_cached recs
        (fun k => if k = (record_id, headers) then none else cache k)
        record_id headers rde t).gettersInvoked = true ∧
    (rde = false →
      ∃ vs, (_get_record_rows_cached recs cache record_id headers rde t).result = some vs) ∧
    (∀ k, k ≠ (record_id, headers) →
      (_get_record_rows_cached recs cache record_id headers rde t).cache k =
      (_get_record_rows_cached recs
        (fun k2 => if k2 = (record_id, headers) then none else cache k2)
        record_id headers rde t).cache k) := by
  simp only [_get_record_rows_cached, compute_fixed_hash, hcorrupt, if_pos]
  cases hr : _get_record_rows (recs record_id) (headers ++ [.STATUS]) rde t with
  | none =>
    dsimp only
    refine ⟨rfl, rfl, rfl, ?_, ?_⟩
    · rintro rfl
      rw [get_record_rows_false_eq] at hr
      cases hr
    · intro k hk
      simp [if_neg hk]
  | some ips =>
    dsimp only
    by_cases hst : ips.getLastD "" = statusText .Started
    · simp only [if_pos hst]
      refine ⟨by simp, by simp, by simp, fun _ => ⟨_, rfl⟩, ?_⟩
      intro k hk
      simp [if_neg hk]
    · simp only [if_neg hst]
      refine ⟨by simp, by simp, by simp, fun _ => ⟨_, rfl⟩, ?_⟩
      intro k hk
      simp [if_neg hk]

/-- Witness for C5: a cache holding only a corrupt file for the key. -/
theorem C5_witness :
    ((fun k => if k = ("rec1", [ExpRecordDisplayFields.RESULT_STR]) then
        some CacheFile.corrupt else none) : CacheState)
      ("rec1", [ExpRecordDisplayFields.RESULT_STR]) = some .corrupt ∧
    (_get_record_rows_cached (fun _ => finishedRec)
        (fun k => if k = ("rec1", [ExpRecordDisplayFields.RESULT_STR]) then
          some CacheFile.corrupt else none)
        "rec1" [ExpRecordDisplayFields.RESULT_STR] false none).result =
      (_get_record_rows_cached (fun _ => finishedRec)
        (fun k => if k = ("rec1", [ExpRecordDisplayFields.RESULT_STR]) then none else
          (fun k2 => if k2 = ("rec1", [ExpRecordDisplayFields.RESULT_STR]) then
            some CacheFile.corrupt else none) k)
        "rec1" [ExpRecordDisplayFields.RESULT_STR] false none).result :=
  ⟨by decide,
    (C5_corrupt_cache_degrades (fun _ => finishedRec)
      (fun k => if k = ("rec1", [ExpRecordDisplayFields.RESULT_STR]) then
        some CacheFile.corrupt else none)
      "rec1" [ExpRecordDisplayFields.RESULT_STR] false none (by decide)).1⟩

/-- C10: the cache key is computed from the record id and the header list only;
after a first call (any truncation limit, any error flag) populates the file for
a terminal record, a second call with a different truncation limit and error
flag reads the same file and returns the stored value verbatim, invoking no
getter. -/
theorem C10_cache_key_ignores_display_params
    (recs : String → ExpRecord) (cache : CacheState) (record_id : String)
    (headers : List ExpRecordDisplayFields) (rde1 rde2 : Bool) (t1 t2 : Option Nat)
    (hmiss : cache (record_id, headers) = none) (ips : List String)
    (hrows : _get_record_rows (recs record_id) (headers ++ [.STATUS]) rde1 t1 = some ips)
    (hterm : ¬ ips.getLastD "" = statusText .Started) :
    (_get_record_rows_cached recs cache record_id headers rde1 t1).cache (record_id, headers)
      = some (.good ips.dropLast.dropLast) ∧
    _get_record_rows_cached recs
        (_get_record_rows_cached recs cache record_id headers rde1 t1).cache
        record_id headers rde2 t2
      = ⟨some ips.dropLast.dropLast,
         (_get_record_rows_cached recs cache record_id headers rde1 t1).cache, false⟩ := by
  have h1 : _get_record_rows_cached recs cache record_id headers rde1 t1 =
      ⟨some ips.dropLast,
       fun k => if k = (record_id, headers) then some (.good ips.dropLast.dropLast) else cache k,
       true⟩ := by
    simp only [_get_record_rows_cached, compute_fixed_hash, hmiss]
    rw [hrows]
    dsimp only
    rw [if_neg hterm]
  rw [h1]
  exact ⟨if_pos rfl, by simp [_get_record_rows_cached, compute_fixed_hash]⟩

/-- Witness for C10: a `Finished` record cached with limit 100 and strict
errors off, then fetched with limit 5 and strict errors on. -/
theorem C10_witness :
    emptyCache ("rec1", [ExpRecordDisplayFields.RESULT_STR]) = none ∧
    _get_record_rows finishedRec ([ExpRecordDisplayFields.RESULT_STR] ++ [.STATUS])
      false (some 100) = some ["42", "Finished"] ∧
    ¬ (["42", "Finished"] : List String).getLastD "" = statusText .Started ∧
    ((_get_record_rows_cached (fun _ => finishedRec) emptyCache "rec1"
        [ExpRecordDisplayFields.RESULT_STR] false (some 100)).cache
        ("rec1", [ExpRecordDisplayFields.RESULT_STR])
      = some (.good (["42", "Finished"] : List String).dropLast.dropLast) ∧
     _get_record_rows_cached (fun _ => finishedRec)
        (_get_record_rows_cached (fun _ => finishedRec) emptyCache "rec1"
          [ExpRecordDisplayFields.RESULT_STR] false (some 100)).cache
        "rec1" [ExpRecordDisplayFields.RESULT_STR] true (some 5)
      = ⟨some (["42", "Finished"] : List String).dropLast.dropLast,
         (_get_record_rows_cached (fun _ => finishedRec) emptyCache "rec1"
           [ExpRecordDisplayFields.RESULT_STR] false (some 100)).cache, false⟩) :=
  ⟨rfl, by decide, by decide,
    C10_cache_key_ignores_display_params (fun _ => finishedRec) emptyCache "rec1"
      [ExpRecordDisplayFields.RESULT_STR] false true (some 100) (some 5) rfl
      ["42", "Finished"] (by decide) (by decide)⟩

/-- C6: for an unrecognised command token the dispatcher computes the edit
distance to every registered command name and suggests the first name attaining
the minimum exactly when that minimum is at most 2, suggesting nothing
otherwise; in particular `"fliter"` yields the suggestion `"filter"`. -/
theorem C6_unknown_command_suggestion (tok : String) (cmds : List String)
    (hne : cmds ≠ []) :
    (minNat (cmds.map (levenshtein_distance tok)) ≤ 2 →
      ∃ c, suggestedCommand tok cmds = some c ∧ c ∈ cmds ∧
        levenshtein_distance tok c = minNat (cmds.map (levenshtein_distance tok)) ∧
        ∀ c2 ∈ cmds, levenshtein_distance tok c ≤ levenshtein_distance tok c2) ∧
    (¬ minNat (cmds.map (levenshtein_distance tok)) ≤ 2 →
      suggestedCommand tok cmds = none) ∧
    suggestedCommand "fliter" commandNames = some "filter" := by
  refine ⟨?_, ?_, by decide⟩
  · intro hle
    rcases cmds with _ | ⟨c0, cs⟩
    · exact absurd rfl hne
    · have hm : minNat ((c0 :: cs).map (levenshtein_distance tok))
          ∈ (c0 :: cs).map (levenshtein_distance tok) := by
        rw [List.map_cons]
        exact minNat_mem _ _
      have hidx : ((c0 :: cs).map (levenshtein_distance tok)).indexOf
            (minNat ((c0 :: cs).map (levenshtein_distance tok)))
          < ((c0 :: cs).map (levenshtein_distance tok)).length :=
        List.indexOf_lt_length.mpr hm
      have hidx2 : ((c0 :: cs).map (levenshtein_distance tok)).indexOf
            (minNat ((c0 :: cs).map (levenshtein_distance tok)))
          < (c0 :: cs).length := by
        simpa using hidx
      refine ⟨(c0 :: cs).get ⟨_, hidx2⟩, ?_, List.get_mem _ _ _, ?_, ?_⟩
      · show (if minNat ((c0 :: cs).map (levenshtein_distance tok)) ≤ 2 then
            (c0 :: cs).get? (((c0 :: cs).map (levenshtein_distance tok)).indexOf
              (minNat ((c0 :: cs).map (levenshtein_distance tok))))
          else none) = _
        rw [if_pos hle]
        exact List.get?_eq_get hidx2
      · have h1 : ((c0 :: cs).map (levenshtein_distance tok)).get ⟨_, hidx⟩
            = minNat ((c0 :: cs).map (levenshtein_distance tok)) :=
          List.indexOf_get hidx
        rw [List.get_eq_getElem, List.getElem_map] at h1
        rw [List.get_eq_getElem]
        exact h1
      · intro c2 hc2
        have h1 : ((c0 :: cs).map (levenshtein_distance tok)).get ⟨_, hidx⟩
            = minNat ((c0 :: cs).map (levenshtein_distance tok)) :=
          List.indexOf_get hidx
        rw [List.get_eq_getElem, List.getElem_map] at h1
        rw [List.get_eq_getElem, h1]
        have hmem2 : levenshtein_distance tok c2
            ∈ (c0 :: cs).map (levenshtein_distance tok) :=
          List.mem_map_of_mem _ hc2
        rw [List.map_cons] at hmem2
        exact minNat_le _ _ _ hmem2
  · intro hgt
    show (if minNat (cmds.map (levenshtein_distance tok)) ≤ 2 then _ else none) = none
    rw [if_neg hgt]

/-- Witness for C6: the concrete command table and the token `"fliter"`. -/
theorem C6_witness :
    commandNames ≠ [] ∧
    ((minNat (commandNames.map (levenshtein_distance "fliter")) ≤ 2 →
      ∃ c, suggestedCommand "fliter" commandNames = some c ∧ c ∈ commandNames ∧
        levenshtein_distance "fliter" c
          = minNat (commandNames.map (levenshtein_distance "fliter")) ∧
        ∀ c2 ∈ commandNames,
          levenshtein_distance "fliter" c ≤ levenshtein_distance "fliter" c2) ∧
     (¬ minNat (commandNames.map (levenshtein_distance "fliter")) ≤ 2 →
      suggestedCommand "fliter" commandNames = none) ∧
     suggestedCommand "fliter" commandNames = some "filter") :=
  ⟨by decide, C6_unknown_command_suggestion "fliter" commandNames (by decide)⟩

/-- C7: an input line whose first token is no registered command but parses as a
numeric selection dispatches to the run handler on that token, appending the
`"-e"` flag exactly when none of `-s`, `-e`, `-p` occurs among the argument
tokens. -/
theorem C7_numeric_run_appends_e
    (line cmd : String) (args : List String)
    (hsplit : pySplit line (Char.ofNat 32) = cmd :: args)
    (hcmdne : ¬ cmd = "")
    (hnotreg : commandNames.contains cmd = false)
    (hnum : (interpret_numbers cmd).isSome = true) :
    (runModeFlags.any (fun x => args.contains x) = false →
      dispatchCommand line = .runNumeric cmd (args ++ ["-e"])) ∧
    (runModeFlags.any (fun x => args.contains x) = true →
      dispatchCommand line = .runNumeric cmd args) := by
  constructor
  · intro hflags
    simp only [dispatchCommand]
    rw [hsplit]
    dsimp only
    rw [if_neg hcmdne, if_neg (by simpa using hnotreg), if_pos hnum,
      if_pos (by simpa using hflags)]
  · intro hflags
    simp only [dispatchCommand]
    rw [hsplit]
    dsimp only
    rw [if_neg hcmdne, if_neg (by simpa using hnotreg), if_pos hnum,
      if_neg (by simpa using hflags)]

/-- Witness for C7: the line `"3 -p2"` (note `-p2` is not one of the exact
flag tokens, so `-e` is appended). -/
theorem C7_witness :
    pySplit "3 -p2" (Char.ofNat 32) = "3" :: ["-p2"] ∧
    ¬ "3" = "" ∧
    commandNames.contains "3" = false ∧
    (interpret_numbers "3").isSome = true ∧
    ((runModeFlags.any (fun x => (["-p2"] : List String).contains x) = false →
      dispatchCommand "3 -p2" = .runNumeric "3" (["-p2"] ++ ["-e"])) ∧
     (runModeFlags.any (fun x => (["-p2"] : List String).contains x) = true →
      dispatchCommand "3 -p2" = .runNumeric "3" ["-p2"])) :=
  ⟨by decide, by decide, by decide, by decide,
    C7_numeric_run_appends_e "3 -p2" "3" ["-p2"] (by decide) (by decide) (by decide)
      (by decide)⟩

/-- C8 counterexample: the confirmation input `"YES"` equals `"yes"`
case-insensitively, so the claim requires both delete handlers to delete; but
`ExperimentRecordBrowser.delete` compares verbatim and performs no deletion,
leaving the collection unchanged (while `ExperimentBrowser.delete` does
delete). -/
theorem C8_counterexample :
    strLower "YES" = "yes" ∧
    recordBrowserDelete ["exp.rec1"] ["exp.rec1"] "YES" = ⟨["exp.rec1"], false⟩ ∧
    experimentBrowserDelete ["exp.rec1"] ["exp.rec1"] "YES" = ⟨[], true⟩ := by
  decide

/-- C8 (amended): `ExperimentBrowser.delete` calls `clear_experiment_records`
exactly when the lower-cased confirmation input equals `"yes"`, while
`ExperimentRecordBrowser.delete` calls it exactly when the confirmation input
is the exact string `"yes"` (case-sensitively); on any other confirmation input
neither handler deletes and the record collection is unchanged. -/
theorem C8_delete_confirmation (records selected : List String) (resp conf : String) :
    (strLower resp = "yes" →
      experimentBrowserDelete records selected resp
        = ⟨clear_experiment_records records selected, true⟩) ∧
    (¬ strLower resp = "yes" →
      experimentBrowserDelete records selected resp = ⟨records, false⟩) ∧
    (conf = "yes" →
      recordBrowserDelete records selected conf
        = ⟨clear_experiment_records records selected, true⟩) ∧
    (¬ conf = "yes" →
      recordBrowserDelete records selected conf = ⟨records, false⟩) := by
  refine ⟨?_, ?_, ?_, ?_⟩ <;> intro h <;>
    simp [experimentBrowserDelete, recordBrowserDelete, h]

/-- Witness for C8: confirmation input `"no"` leaves the collection unchanged
in both browsers. -/
theorem C8_witness :
    ¬ strLower "no" = "yes" ∧ ¬ "no" = "yes" ∧
    ((strLower "no" = "yes" →
      experimentBrowserDelete ["r1", "r2"] ["r1"] "no"
        = ⟨clear_experiment_records ["r1", "r2"] ["r1"], true⟩) ∧
     (¬ strLower "no" = "yes" →
      experimentBrowserDelete ["r1", "r2"] ["r1"] "no" = ⟨["r1", "r2"], false⟩) ∧
     ("no" = "yes" →
      recordBrowserDelete ["r1", "r2"] ["r1"] "no"
        = ⟨clear_experiment_records ["r1", "r2"] ["r1"], true⟩) ∧
     (¬ "no" = "yes" →
      recordBrowserDelete ["r1", "r2"] ["r1"] "no" = ⟨["r1", "r2"], false⟩)) :=
  ⟨by decide, by decide, C8_delete_confirmation ["r1", "r2"] ["r1"] "no" "no"⟩

/-- Every splice index recorded by the nested loop is at least the starting
counter value. -/
theorem nested_ixs_ge :
    ∀ (counts : List Nat) (i0 c : Nat), ∀ m ∈ (nestedLoop i0 c counts).2.2, c ≤ m := by
  intro counts
  induction counts with
  | nil => intro i0 c m hm; cases hm
  | cons n rest ih =>
    intro i0 c m hm
    dsimp only [nestedLoop] at hm
    rcases List.mem_cons.mp hm with rfl | hm
    · exact Nat.le_refl m
    · exact le_trans (Nat.le_add_right c n) (ih (i0 + 1) (c + n) m hm)

/-- Splicing walks over a leading block untouched when every pending offset
lies at or beyond its end. -/
theorem insertFrom_skip {α : Type} (ys : List α) (is : List Nat) (R xs : List α)
    (pos : Nat) (hge : ∀ m ∈ is, pos + R.length ≤ m) :
    insertFrom pos (R ++ xs) ys is = R ++ insertFrom (pos + R.length) xs ys is := by
  cases ys with
  | nil => rfl
  | cons y ys =>
    cases is with
    | nil => rfl
    | cons i is =>
      have hi : pos + R.length ≤ i := hge i (List.mem_cons_self i is)
      have hR : R.length ≤ i - pos := by omega
      show (R ++ xs).take (i - pos) ++ y :: insertFrom i ((R ++ xs).drop (i - pos)) ys is = _
      rw [List.take_append_eq_append_take, List.drop_append_eq_append_drop,
        List.take_of_length_le hR, List.drop_eq_nil_of_le hR, List.nil_append,
        Nat.sub_sub]
      rw [List.append_assoc]
      rfl

/-- The splice of the group lines into the record lines at the recorded indices
produces exactly the canonical blocks: each experiment's group line directly
followed by its record lines. -/
theorem nested_merge :
    ∀ (counts : List Nat) (i0 pos : Nat),
      insertFrom pos (nestedLoop i0 pos counts).1 (nestedLoop i0 pos counts).2.1
        (nestedLoop i0 pos counts).2.2 = canonicalBlocks i0 counts := by
  intro counts
  induction counts with
  | nil => intro i0 pos; rfl
  | cons n rest ih =>
    intro i0 pos
    dsimp only [nestedLoop]
    show ((List.range n).map (fun j => TableLine.recordLine i0 j) ++
          (nestedLoop (i0 + 1) (pos + n) rest).1).take (pos - pos) ++
        TableLine.expLine i0 ::
          insertFrom pos (((List.range n).map (fun j => TableLine.recordLine i0 j) ++
            (nestedLoop (i0 + 1) (pos + n) rest).1).drop (pos - pos))
            (nestedLoop (i0 + 1) (pos + n) rest).2.1
            (nestedLoop (i0 + 1) (pos + n) rest).2.2
      = canonicalBlocks i0 (n :: rest)
    rw [Nat.sub_self, List.take_zero, List.drop_zero, List.nil_append]
    have hlen : ((List.range n).map (fun j => TableLine.recordLine i0 j)).length = n := by
      rw [List.length_map, List.length_range]
    rw [insertFrom_skip _ _ _ _ pos
        (by
          intro m hm
          rw [hlen]
          exact nested_ixs_ge rest (i0 + 1) (pos + n) m hm),
      hlen, ih (i0 + 1) (pos + n)]
    rfl

/-- The splice index of experiment `k` is 2 plus the record counts of all
preceding experiments. -/
theorem nested_ixs_get :
    ∀ (counts : List Nat) (i0 c k : Nat), k < counts.length →
      (nestedLoop i0 c counts).2.2.get? k = some (c + (counts.take k).sum) := by
  intro counts
  induction counts with
  | nil => intro i0 c k hk; cases hk
  | cons n rest ih =>
    intro i0 c k hk
    cases k with
    | zero => simp [nestedLoop]
    | succ k =>
      dsimp only [nestedLoop]
      show (nestedLoop (i0 + 1) (c + n) rest).2.2.get? k = _
      rw [ih (i0 + 1) (c + n) k (Nat.lt_of_succ_lt_succ hk)]
      have : c + n + (rest.take k).sum = c + ((n :: rest).take (k + 1)).sum := by
        rw [List.take_succ_cons, List.sum_cons]
        omega
      rw [this]

/-- In the canonical blocks, each experiment's group line together with any of
its record lines forms a sublist (the group line comes first). -/
theorem canonicalBlocks_pair_sublist :
    ∀ (counts : List Nat) (i0 k j ni : Nat), counts.get? k = some ni → j < ni →
      [TableLine.expLine (i0 + k), TableLine.recordLine (i0 + k) j].Sublist
        (canonicalBlocks i0 counts) := by
  intro counts
  induction counts with
  | nil => intro i0 k j ni hni; cases hni
  | cons n rest ih =>
    intro i0 k j ni hni hj
    cases k with
    | zero =>
      have hn : ni = n := by
        injection hni with h
        exact h.symm
      have hj2 : j < n := hn ▸ hj
      show [TableLine.expLine (i0 + 0), TableLine.recordLine (i0 + 0) j].Sublist
        (TableLine.expLine i0 ::
          ((List.range n).map (fun j2 => TableLine.recordLine i0 j2) ++
            canonicalBlocks (i0 + 1) rest))
      rw [Nat.add_zero]
      refine List.Sublist.cons₂ _ ?_
      refine List.Sublist.trans ?_ (List.sublist_append_left _ _)
      exact List.singleton_sublist.mpr
        (List.mem_map_of_mem _ (List.mem_range.mpr hj2))
    | succ k =>
      have heq : i0 + (k + 1) = (i0 + 1) + k := by omega
      rw [heq]
      refine List.Sublist.cons _ ?_
      exact List.Sublist.trans (ih (i0 + 1) k j ni hni hj)
        (List.sublist_append_right _ _)

/-- C9: in nested display mode the splice index of each experiment equals the
two record-table header lines plus the record counts of all preceding
experiments, the spliced output is exactly the canonical nested layout, and in
it every experiment's group line precedes each of that experiment's record
lines. -/
theorem C9_nested_layout (counts : List Nat) :
    get_experiment_list_str_nested counts = nestedCanonical counts ∧
    (∀ k, k < counts.length →
      (nestedLoop 0 2 counts).2.2.get? k = some (2 + (counts.take k).sum)) ∧
    (∀ i j ni, counts.get? i = some ni → j < ni →
      [TableLine.expLine i, TableLine.recordLine i j].Sublist
        (get_experiment_list_str_nested counts)) := by
  have hmain : get_experiment_list_str_nested counts = nestedCanonical counts := by
    show insertFrom 0
        ([TableLine.headerLine 0, TableLine.headerLine 1] ++ (nestedLoop 0 2 counts).1)
        (nestedLoop 0 2 counts).2.1 (nestedLoop 0 2 counts).2.2 = nestedCanonical counts
    rw [insertFrom_skip _ _ _ _ 0
        (by
          intro m hm
          exact nested_ixs_ge counts 0 2 m hm)]
    have h02 : 0 + [TableLine.headerLine 0, TableLine.headerLine 1].length = 2 := rfl
    rw [h02, nested_merge counts 0 2]
    rfl
  refine ⟨hmain, fun k hk => nested_ixs_get counts 0 2 k hk, ?_⟩
  intro i j ni hni hj
  rw [hmain]
  have h := canonicalBlocks_pair_sublist counts 0 i j ni hni hj
  rw [Nat.zero_add] at h
  exact List.Sublist.cons _ (List.Sublist.cons _ h)

/-- Witness for C9: a collection with record counts 2, 0, 1. -/
theorem C9_witness :
    ((0 : Nat) < ([2, 0, 1] : List Nat).length) ∧
    (([2, 0, 1] : List Nat).get? 0 = some 2) ∧ ((0 : Nat) < 2) ∧
    get_experiment_list_str_nested [2, 0, 1] = nestedCanonical [2, 0, 1] ∧
    (nestedLoop 0 2 [2, 0, 1]).2.2.get? 0 = some (2 + (([2, 0, 1] : List Nat).take 0).sum) ∧
    [TableLine.expLine 0, TableLine.recordLine 0 0].Sublist
      (get_experiment_list_str_nested [2, 0, 1]) :=
  ⟨by decide, rfl, by decide,
    (C9_nested_layout [2, 0, 1]).1,
    (C9_nested_layout [2, 0, 1]).2.1 0 (by decide),
    (C9_nested_layout [2, 0, 1]).2.2 0 0 2 rfl (by decide)⟩

end ArtemisUI
